import Mathlib

/-!
Verification of the `guid-create` crate: a 128-bit GUID value type backed by a
16-byte array, with constructors from components and raw bytes, a canonical
textual parser, and a canonical textual formatter.

The embedding models:
  - `u8`/`u16`/`u32` values as `Nat` (bounds carried as hypotheses, with
    explicit `% 256` where the source performs byte decomposition);
  - the 16-byte array `[u8; 16]` as a `List Nat` whose well-formedness
    (`length = 16`, every byte `< 256`) is the predicate `GUID.wf`;
  - Rust strings as `List Char`, with `str::as_bytes` modelled by an explicit
    UTF-8 encoder `utf8Bytes`;
  - fallible computations by `PResult`, whose third constructor `fault`
    stands for a checked-arithmetic panic (debug-mode overflow/underflow);
    the parser is shown never to reach it.
-/

namespace GuidCreate

/-- Outcome of a fallible computation in the source: success, the single
`ParseError` value, or an arithmetic fault (a `u8` overflow/underflow panic,
which the parser is proved never to hit). -/
inductive PResult (α : Type) where
  | ok : α → PResult α
  | err : PResult α
  | fault : PResult α
deriving DecidableEq

/-- Monadic sequencing mirroring Rust's `?` / `and_then`: errors and faults
propagate. -/
def PResult.bind {α β : Type} : PResult α → (α → PResult β) → PResult β
  | .ok a, f => f a
  | .err, _ => .err
  | .fault, _ => .fault

/-- A GUID backed by a 16 byte array (`struct GUID { data: [u8; 16] }`). -/
structure GUID where
  data : List Nat
deriving DecidableEq

/-- Well-formedness of the byte storage: exactly 16 bytes, each a `u8`. -/
def GUID.wf (g : GUID) : Prop :=
  g.data.length = 16 ∧ ∀ b ∈ g.data, b < 256

instance (g : GUID) : Decidable g.wf := by
  unfold GUID.wf; infer_instance

/-- `u32::to_be_bytes`: the four big-endian bytes of a 32-bit value. -/
def u32_be_bytes (v : Nat) : List Nat :=
  [v / 2 ^ 24 % 256, v / 2 ^ 16 % 256, v / 2 ^ 8 % 256, v % 256]

/-- `u16::to_be_bytes`: the two big-endian bytes of a 16-bit value. -/
def u16_be_bytes (v : Nat) : List Nat :=
  [v / 2 ^ 8 % 256, v % 256]

/-- `uN::from_be_bytes`: big-endian recomposition of a byte sequence. -/
def from_be_bytes (l : List Nat) : Nat :=
  l.foldl (fun a b => a * 256 + b) 0

/-- `GUID::build_from_components`: serialize `d1`,`d2`,`d3` big-endian into
bytes 0..7 and copy `d4` verbatim into bytes 8..15. -/
def GUID.build_from_components (d1 d2 d3 : Nat) (d4 : List Nat) : GUID :=
  ⟨u32_be_bytes d1 ++ u16_be_bytes d2 ++ u16_be_bytes d3 ++ d4⟩

/-- `GUID::build_from_slice`: a direct copy of the 16 bytes. -/
def GUID.build_from_slice (data : List Nat) : GUID :=
  ⟨data⟩

/-- `GUID::data1`: big-endian `u32` over bytes 0..4. -/
def GUID.data1 (g : GUID) : Nat := from_be_bytes (g.data.take 4)

/-- `GUID::data2`: big-endian `u16` over bytes 4..6. -/
def GUID.data2 (g : GUID) : Nat := from_be_bytes ((g.data.drop 4).take 2)

/-- `GUID::data3`: big-endian `u16` over bytes 6..8. -/
def GUID.data3 (g : GUID) : Nat := from_be_bytes ((g.data.drop 6).take 2)

/-- `GUID::data4`: verbatim copy of bytes 8..16. -/
def GUID.data4 (g : GUID) : List Nat := (g.data.drop 8).take 8

/-- `#[derive(Default)]` on `GUID`: the all-zero byte array. -/
def GUID.default : GUID := ⟨List.replicate 16 0⟩

/-- Checked `u8` subtraction: underflow is a fault (debug-mode panic). -/
def sub_u8 (a b : Nat) : PResult Nat :=
  if a < b then .fault else .ok (a - b)

/-- Checked `u8` evaluation of `a * 16 + b`: a result out of `u8` range is a
fault (debug-mode panic). -/
def mul16_add_u8 (a b : Nat) : PResult Nat :=
  if a * 16 + b < 256 then .ok (a * 16 + b) else .fault

/-- The parser's digit decoder `n`: a hex-digit byte to its value, anything
else a `ParseError`. -/
def n (ch : Nat) : PResult Nat :=
  if 48 ≤ ch ∧ ch ≤ 57 then sub_u8 ch 48
  else if 65 ≤ ch ∧ ch ≤ 70 then sub_u8 ch 55
  else if 97 ≤ ch ∧ ch ≤ 102 then sub_u8 ch 87
  else .err

/-- The parser's `hexbyte`: two leading hex digits become one byte, returned
with the remaining input. -/
def hexbyte (s : List Nat) : PResult (Nat × List Nat) :=
  match s with
  | a :: b :: tail =>
      (n a).bind fun va =>
      (n b).bind fun vb =>
      (mul16_add_u8 va vb).bind fun x => .ok (x, tail)
  | _ => .err

/-- The parser's `strip_dash`: consume one leading ASCII dash (byte 45). -/
def strip_dash (s : List Nat) : PResult (List Nat) :=
  match s with
  | b :: tail => if b = 45 then .ok tail else .err
  | _ => .err

/-- The parser's `fill`: consume `k` hex-encoded bytes from the input,
returning them with the remaining input. -/
def fill (k : Nat) (s : List Nat) : PResult (List Nat × List Nat) :=
  match k with
  | 0 => .ok ([], s)
  | Nat.succ k =>
      (hexbyte s).bind fun ds =>
      (fill k ds.2).bind fun rest => .ok (ds.1 :: rest.1, rest.2)

/-- `GUID::parse` on the UTF-8 byte sequence of the input: groups of
4, 2, 2, 2, 6 hex-encoded bytes separated by dashes, then end of input. -/
def GUID.parse_bytes (s : List Nat) : PResult GUID :=
  (fill 4 s).bind fun p1 =>
  (strip_dash p1.2).bind fun s1 =>
  (fill 2 s1).bind fun p2 =>
  (strip_dash p2.2).bind fun s2 =>
  (fill 2 s2).bind fun p3 =>
  (strip_dash p3.2).bind fun s3 =>
  (fill 2 s3).bind fun p4 =>
  (strip_dash p4.2).bind fun s4 =>
  (fill 6 s4).bind fun p5 =>
  if p5.2.isEmpty then .ok ⟨p1.1 ++ p2.1 ++ p3.1 ++ p4.1 ++ p5.1⟩ else .err

/-- UTF-8 encoding of one scalar value, as byte values. -/
def utf8EncodeChar (c : Char) : List Nat :=
  if c.toNat < 128 then [c.toNat]
  else if c.toNat < 2048 then [192 + c.toNat / 64, 128 + c.toNat % 64]
  else if c.toNat < 65536 then
    [224 + c.toNat / 4096, 128 + c.toNat / 64 % 64, 128 + c.toNat % 64]
  else
    [240 + c.toNat / 262144, 128 + c.toNat / 4096 % 64, 128 + c.toNat / 64 % 64,
      128 + c.toNat % 64]

/-- `str::as_bytes`: the UTF-8 byte sequence of a string. -/
def utf8Bytes : List Char → List Nat
  | [] => []
  | c :: cs => utf8EncodeChar c ++ utf8Bytes cs

/-- `GUID::parse`: run the byte-level parser on the string's UTF-8 bytes. -/
def GUID.parse (s : List Char) : PResult GUID :=
  GUID.parse_bytes (utf8Bytes s)

/-- Uppercase hexadecimal digit for a value below 16, as printed by `{:X}`. -/
def hexDigitChar (v : Nat) : Char :=
  if v < 10 then Char.ofNat (48 + v) else Char.ofNat (55 + v)

/-- Digit-extraction loop for `{:X}`; the first argument bounds the recursion
depth and is irrelevant whenever it exceeds the value. -/
def toHexAux : Nat → Nat → List Char
  | 0, _ => []
  | fuel + 1, v =>
      if v < 16 then [hexDigitChar v]
      else toHexAux fuel (v / 16) ++ [hexDigitChar (v % 16)]

/-- The uppercase hexadecimal digits of a value, most significant first; the
value 0 prints as "0". -/
def toHex (v : Nat) : List Char := toHexAux (v + 1) v

/-- `{:0wX}`: uppercase hexadecimal, left-padded with zeros to width `w`. -/
def hexPad (w v : Nat) : List Char :=
  List.replicate (w - (toHex v).length) '0' ++ toHex v

/-- The `Display` implementation: `{:08X}-{:04X}-{:04X}-{:04X}-{:08X}{:04X}`
over `data1`, `data2`, `data3`, the `u16` at bytes 8..10, the `u32` at bytes
10..14, and the `u16` at bytes 14..16. -/
def GUID.fmt (g : GUID) : List Char :=
  hexPad 8 g.data1 ++ ['-'] ++
  hexPad 4 g.data2 ++ ['-'] ++
  hexPad 4 g.data3 ++ ['-'] ++
  hexPad 4 (from_be_bytes ((g.data.drop 8).take 2)) ++ ['-'] ++
  hexPad 8 (from_be_bytes ((g.data.drop 10).take 4)) ++
  hexPad 4 (from_be_bytes ((g.data.drop 14).take 2))

/-- The hex-digit character class of the parser, at the byte level. -/
def isHexByte (b : Nat) : Bool :=
  (48 ≤ b && b ≤ 57) || (65 ≤ b && b ≤ 70) || (97 ≤ b && b ≤ 102)

/-- The value of a hex-digit byte. -/
def hexVal (b : Nat) : Nat :=
  if b ≤ 57 then b - 48 else if b ≤ 70 then b - 55 else b - 87

/-- The byte values a well-formed parse produces from consecutive pairs of
hex-digit bytes. -/
def pairVals : List Nat → List Nat
  | a :: b :: rest => (hexVal a * 16 + hexVal b) :: pairVals rest
  | _ => []

theorem isHexByte_bounds {b : Nat} (h : isHexByte b = true) : 48 ≤ b ∧ b ≤ 102 := by
  simp only [isHexByte, Bool.or_eq_true, Bool.and_eq_true, decide_eq_true_eq] at h
  omega

theorem hexVal_lt {b : Nat} (h : isHexByte b = true) : hexVal b < 16 := by
  have hb := isHexByte_bounds h
  unfold hexVal
  split_ifs <;> omega

theorem n_of_hex {b : Nat} (h : isHexByte b = true) : n b = .ok (hexVal b) := by
  simp only [isHexByte, Bool.or_eq_true, Bool.and_eq_true, decide_eq_true_eq] at h
  unfold n sub_u8 hexVal
  split_ifs <;> first | rfl | omega

theorem n_ok_inv {b v : Nat} (h : n b = .ok v) : isHexByte b = true ∧ v = hexVal b := by
  unfold n sub_u8 at h
  split_ifs at h <;> simp at h
  all_goals
    constructor
    · simp only [isHexByte, Bool.or_eq_true, Bool.and_eq_true, decide_eq_true_eq]
      omega
    · unfold hexVal
      split_ifs <;> omega

theorem n_ne_fault (b : Nat) : n b ≠ .fault := by
  unfold n sub_u8
  split_ifs <;> first | (exfalso; omega) | simp

theorem hexbyte_nil : hexbyte [] = .err := rfl

theorem hexbyte_single (a : Nat) : hexbyte [a] = .err := rfl

theorem hexbyte_cons (a b : Nat) (t : List Nat) :
    hexbyte (a :: b :: t)
      = (n a).bind fun va => (n b).bind fun vb =>
        (mul16_add_u8 va vb).bind fun x => .ok (x, t) := rfl

theorem hexbyte_cons_hex {a b : Nat} (ha : isHexByte a = true) (hb : isHexByte b = true)
    (t : List Nat) : hexbyte (a :: b :: t) = .ok (hexVal a * 16 + hexVal b, t) := by
  have hva := hexVal_lt ha
  have hvb := hexVal_lt hb
  rw [hexbyte_cons, n_of_hex ha]
  simp only [PResult.bind]
  rw [n_of_hex hb]
  simp only [PResult.bind]
  unfold mul16_add_u8
  rw [if_pos (by omega)]

theorem hexbyte_ok_inv {s : List Nat} {d : Nat} {t : List Nat}
    (h : hexbyte s = .ok (d, t)) :
    ∃ a b, s = a :: b :: t ∧ isHexByte a = true ∧ isHexByte b = true ∧
      d = hexVal a * 16 + hexVal b ∧ d < 256 := by
  match s with
  | [] => simp [hexbyte_nil] at h
  | [a] => simp [hexbyte_single] at h
  | a :: b :: t' =>
    rw [hexbyte_cons] at h
    rcases hna : n a with va | _ | _ <;> rw [hna] at h <;> simp only [PResult.bind] at h
    · rcases hnb : n b with vb | _ | _ <;> rw [hnb] at h <;> simp only [PResult.bind] at h
      · obtain ⟨haa, ha⟩ := n_ok_inv hna
        obtain ⟨hab, hb⟩ := n_ok_inv hnb
        have hva := hexVal_lt haa
        have hvb := hexVal_lt hab
        unfold mul16_add_u8 at h
        rw [if_pos (by omega)] at h
        simp only [PResult.bind, PResult.ok.injEq, Prod.mk.injEq] at h
        exact ⟨a, b, by rw [h.2], haa, hab, by omega, by omega⟩
      · exact absurd h (by simp)
      · exact absurd h (by simp)
    · exact absurd h (by simp)
    · exact absurd h (by simp)

theorem hexbyte_ne_fault (s : List Nat) : hexbyte s ≠ .fault := by
  match s with
  | [] => simp [hexbyte_nil]
  | [a] => simp [hexbyte_single]
  | a :: b :: t =>
    rw [hexbyte_cons]
    rcases hna : n a with va | _ | _ <;> simp only [PResult.bind]
    · rcases hnb : n b with vb | _ | _ <;> simp only [PResult.bind]
      · obtain ⟨haa, ha⟩ := n_ok_inv hna
        obtain ⟨hab, hb⟩ := n_ok_inv hnb
        have hva := hexVal_lt haa
        have hvb := hexVal_lt hab
        unfold mul16_add_u8
        rw [if_pos (by omega)]
        simp [PResult.bind]
      · simp
      · exact absurd hnb (n_ne_fault b)
    · simp
    · exact absurd hna (n_ne_fault a)

theorem strip_dash_cons (b : Nat) (t : List Nat) :
    strip_dash (b :: t) = if b = 45 then .ok t else .err := rfl

theorem strip_dash_ok_inv {s t : List Nat} (h : strip_dash s = .ok t) : s = 45 :: t := by
  cases s with
  | nil => simp [strip_dash] at h
  | cons b t' =>
    rw [strip_dash_cons] at h
    split_ifs at h with hb
    simp only [PResult.ok.injEq] at h
    rw [hb, h]

theorem strip_dash_dash (t : List Nat) : strip_dash (45 :: t) = .ok t := by
  simp [strip_dash_cons]

theorem strip_dash_ne_fault (s : List Nat) : strip_dash s ≠ .fault := by
  match s with
  | [] => simp [strip_dash]
  | b :: t =>
    rw [strip_dash_cons]
    split_ifs <;> simp

theorem bind_ne_fault {α β : Type} {x : PResult α} {f : α → PResult β}
    (hx : x ≠ .fault) (hf : ∀ a, f a ≠ .fault) : x.bind f ≠ .fault := by
  cases x <;> simp_all [PResult.bind]

theorem fill_zero (s : List Nat) : fill 0 s = .ok ([], s) := rfl

theorem fill_succ (k : Nat) (s : List Nat) :
    fill (k + 1) s
      = (hexbyte s).bind fun ds =>
        (fill k ds.2).bind fun rest => .ok (ds.1 :: rest.1, rest.2) := rfl

theorem pairVals_nil : pairVals [] = [] := rfl

theorem pairVals_cons (a b : Nat) (rest : List Nat) :
    pairVals (a :: b :: rest) = (hexVal a * 16 + hexVal b) :: pairVals rest := rfl

theorem fill_ne_fault (k : Nat) (s : List Nat) : fill k s ≠ .fault := by
  induction k generalizing s with
  | zero => simp [fill_zero]
  | succ k ih =>
    rw [fill_succ]
    exact bind_ne_fault (hexbyte_ne_fault s) fun ds =>
      bind_ne_fault (ih ds.2) fun rest => by simp

theorem fill_hexRun : ∀ (k : Nat) (pre t : List Nat), pre.length = 2 * k →
    (∀ b ∈ pre, isHexByte b = true) → fill k (pre ++ t) = .ok (pairVals pre, t) := by
  intro k
  induction k with
  | zero =>
    intro pre t hlen _
    obtain rfl : pre = [] := List.length_eq_zero.mp (by omega)
    simp [fill_zero, pairVals_nil]
  | succ k ih =>
    intro pre t hlen hhex
    match pre, hlen with
    | a :: b :: rest, hlen =>
      have ha : isHexByte a = true := hhex a (by simp)
      have hb : isHexByte b = true := hhex b (by simp)
      rw [show ((a :: b :: rest) ++ t) = a :: b :: (rest ++ t) by simp]
      rw [fill_succ, hexbyte_cons_hex ha hb]
      simp only [PResult.bind]
      rw [ih rest t (by simp at hlen; omega) (fun x hx => hhex x (by simp [hx]))]
      simp [PResult.bind, pairVals_cons]

theorem fill_ok_inv : ∀ (k : Nat) (s ds t : List Nat), fill k s = .ok (ds, t) →
    ∃ pre, s = pre ++ t ∧ pre.length = 2 * k ∧ (∀ b ∈ pre, isHexByte b = true) ∧
      ds = pairVals pre := by
  intro k
  induction k with
  | zero =>
    intro s ds t h
    rw [fill_zero] at h
    simp only [PResult.ok.injEq, Prod.mk.injEq] at h
    exact ⟨[], by simp [h.2], by simp, by simp, by simp [pairVals_nil, ← h.1]⟩
  | succ k ih =>
    intro s ds t h
    rw [fill_succ] at h
    rcases hhb : hexbyte s with ⟨d, s'⟩ | _ | _ <;> rw [hhb] at h
      <;> simp only [PResult.bind] at h
    · rcases hfl : fill k s' with ⟨ds', t'⟩ | _ | _ <;> rw [hfl] at h
        <;> simp only [PResult.bind] at h
      · simp only [PResult.ok.injEq, Prod.mk.injEq] at h
        obtain ⟨a, b, hs, ha, hb, hd, _⟩ := hexbyte_ok_inv hhb
        obtain ⟨pre, hs', hlen, hhex, hds⟩ := ih s' ds' t' hfl
        obtain ⟨rfl, rfl⟩ := h
        refine ⟨a :: b :: pre, ?_, by simp [hlen]; omega, ?_, ?_⟩
        · rw [hs, hs']
          simp
        · intro x hx
          simp only [List.mem_cons] at hx
          rcases hx with rfl | rfl | hx
          · exact ha
          · exact hb
          · exact hhex x hx
        · rw [pairVals_cons, ← hds, hd]
      · exact absurd h (by simp)
      · exact absurd h (by simp)
    · exact absurd h (by simp)
    · exact absurd h (by simp)

theorem bind_ok_inv {α β : Type} {x : PResult α} {f : α → PResult β} {b : β}
    (h : x.bind f = .ok b) : ∃ a, x = .ok a ∧ f a = .ok b := by
  cases x <;> simp_all [PResult.bind]

theorem parse_bytes_ne_fault (s : List Nat) : GUID.parse_bytes s ≠ .fault := by
  unfold GUID.parse_bytes
  refine bind_ne_fault (fill_ne_fault 4 s) fun p1 => ?_
  refine bind_ne_fault (strip_dash_ne_fault p1.2) fun s1 => ?_
  refine bind_ne_fault (fill_ne_fault 2 s1) fun p2 => ?_
  refine bind_ne_fault (strip_dash_ne_fault p2.2) fun s2 => ?_
  refine bind_ne_fault (fill_ne_fault 2 s2) fun p3 => ?_
  refine bind_ne_fault (strip_dash_ne_fault p3.2) fun s3 => ?_
  refine bind_ne_fault (fill_ne_fault 2 s3) fun p4 => ?_
  refine bind_ne_fault (strip_dash_ne_fault p4.2) fun s4 => ?_
  refine bind_ne_fault (fill_ne_fault 6 s4) fun p5 => ?_
  split_ifs <;> simp

theorem parse_bytes_groups (q1 q2 q3 q4 q5 : List Nat)
    (h1 : q1.length = 8) (h2 : q2.length = 4) (h3 : q3.length = 4)
    (h4 : q4.length = 4) (h5 : q5.length = 12)
    (hx : ∀ b ∈ q1 ++ q2 ++ q3 ++ q4 ++ q5, isHexByte b = true) :
    GUID.parse_bytes (q1 ++ [45] ++ q2 ++ [45] ++ q3 ++ [45] ++ q4 ++ [45] ++ q5)
      = .ok ⟨pairVals q1 ++ pairVals q2 ++ pairVals q3 ++ pairVals q4 ++ pairVals q5⟩ := by
  have hx1 : ∀ b ∈ q1, isHexByte b = true := fun b hb => hx b (by simp [hb])
  have hx2 : ∀ b ∈ q2, isHexByte b = true := fun b hb => hx b (by simp [hb])
  have hx3 : ∀ b ∈ q3, isHexByte b = true := fun b hb => hx b (by simp [hb])
  have hx4 : ∀ b ∈ q4, isHexByte b = true := fun b hb => hx b (by simp [hb])
  have hx5 : ∀ b ∈ q5, isHexByte b = true := fun b hb => hx b (by simp [hb])
  unfold GUID.parse_bytes
  rw [show q1 ++ [45] ++ q2 ++ [45] ++ q3 ++ [45] ++ q4 ++ [45] ++ q5
      = q1 ++ (45 :: (q2 ++ (45 :: (q3 ++ (45 :: (q4 ++ (45 :: q5))))))) by simp]
  rw [fill_hexRun 4 q1 _ (by omega) hx1]
  simp only [PResult.bind]
  rw [strip_dash_dash]
  simp only [PResult.bind]
  rw [fill_hexRun 2 q2 _ (by omega) hx2]
  simp only [PResult.bind]
  rw [strip_dash_dash]
  simp only [PResult.bind]
  rw [fill_hexRun 2 q3 _ (by omega) hx3]
  simp only [PResult.bind]
  rw [strip_dash_dash]
  simp only [PResult.bind]
  rw [fill_hexRun 2 q4 _ (by omega) hx4]
  simp only [PResult.bind]
  rw [strip_dash_dash]
  simp only [PResult.bind]
  rw [show q5 = q5 ++ [] by simp]
  rw [fill_hexRun 6 q5 [] (by simp [h5]) (by simpa using hx5)]
  simp [PResult.bind]

theorem parse_bytes_ok_inv {s : List Nat} {g : GUID} (h : GUID.parse_bytes s = .ok g) :
    ∃ q1 q2 q3 q4 q5 : List Nat,
      s = q1 ++ [45] ++ q2 ++ [45] ++ q3 ++ [45] ++ q4 ++ [45] ++ q5 ∧
      q1.length = 8 ∧ q2.length = 4 ∧ q3.length = 4 ∧ q4.length = 4 ∧ q5.length = 12 ∧
      (∀ b ∈ q1 ++ q2 ++ q3 ++ q4 ++ q5, isHexByte b = true) ∧
      g = ⟨pairVals q1 ++ pairVals q2 ++ pairVals q3 ++ pairVals q4 ++ pairVals q5⟩ := by
  unfold GUID.parse_bytes at h
  obtain ⟨p1, hf1, h⟩ := bind_ok_inv h
  obtain ⟨s1, hd1, h⟩ := bind_ok_inv h
  obtain ⟨p2, hf2, h⟩ := bind_ok_inv h
  obtain ⟨s2, hd2, h⟩ := bind_ok_inv h
  obtain ⟨p3, hf3, h⟩ := bind_ok_inv h
  obtain ⟨s3, hd3, h⟩ := bind_ok_inv h
  obtain ⟨p4, hf4, h⟩ := bind_ok_inv h
  obtain ⟨s4, hd4, h⟩ := bind_ok_inv h
  obtain ⟨p5, hf5, h⟩ := bind_ok_inv h
  split_ifs at h with he
  simp only [PResult.ok.injEq] at h
  obtain ⟨pre1, hs1, hl1, hh1, hv1⟩ := fill_ok_inv 4 _ _ _ hf1
  obtain ⟨pre2, hs2, hl2, hh2, hv2⟩ := fill_ok_inv 2 _ _ _ hf2
  obtain ⟨pre3, hs3, hl3, hh3, hv3⟩ := fill_ok_inv 2 _ _ _ hf3
  obtain ⟨pre4, hs4, hl4, hh4, hv4⟩ := fill_ok_inv 2 _ _ _ hf4
  obtain ⟨pre5, hs5, hl5, hh5, hv5⟩ := fill_ok_inv 6 _ _ _ hf5
  have hr1 := strip_dash_ok_inv hd1
  have hr2 := strip_dash_ok_inv hd2
  have hr3 := strip_dash_ok_inv hd3
  have hr4 := strip_dash_ok_inv hd4
  have hr5 : p5.2 = [] := by
    cases hp5 : p5.2 with
    | nil => rfl
    | cons a t => rw [hp5] at he; simp [List.isEmpty] at he
  refine ⟨pre1, pre2, pre3, pre4, pre5, ?_, by omega, by omega, by omega, by omega, by omega,
    ?_, ?_⟩
  · rw [hs1, hr1, hs2, hr2, hs3, hr3, hs4, hr4, hs5, hr5]
    simp
  · intro b hb
    simp only [List.mem_append] at hb
    rcases hb with ((((hb | hb) | hb) | hb) | hb)
    · exact hh1 b hb
    · exact hh2 b hb
    · exact hh3 b hb
    · exact hh4 b hb
    · exact hh5 b hb
  · rw [← h, hv1, hv2, hv3, hv4, hv5]

/-- Big-endian fixed-width hexadecimal rendering: the low digit last. -/
def beHexDigits : Nat → Nat → List Char
  | 0, _ => []
  | k + 1, v => beHexDigits k (v / 16) ++ [hexDigitChar (v % 16)]

/-- The two hex digit characters of one byte, high nibble first. -/
def byteHexChars (b : Nat) : List Char := [hexDigitChar (b / 16), hexDigitChar (b % 16)]

/-- Hex digit characters of a byte list, two per byte. -/
def hexCharsOfBytes : List Nat → List Char
  | [] => []
  | b :: bs => byteHexChars b ++ hexCharsOfBytes bs

theorem toHexAux_succ (fuel v : Nat) :
    toHexAux (fuel + 1) v
      = if v < 16 then [hexDigitChar v]
        else toHexAux fuel (v / 16) ++ [hexDigitChar (v % 16)] := rfl

theorem beHexDigits_succ (k v : Nat) :
    beHexDigits (k + 1) v = beHexDigits k (v / 16) ++ [hexDigitChar (v % 16)] := rfl

theorem hexCharsOfBytes_cons (b : Nat) (bs : List Nat) :
    hexCharsOfBytes (b :: bs) = byteHexChars b ++ hexCharsOfBytes bs := rfl

theorem toHexAux_irrel : ∀ (f1 f2 v : Nat), v < f1 → v < f2 →
    toHexAux f1 v = toHexAux f2 v := by
  intro f1
  induction f1 with
  | zero => intro f2 v h1 _; omega
  | succ f1 ih =>
    intro f2 v h1 h2
    cases f2 with
    | zero => omega
    | succ f2 =>
      rw [toHexAux_succ, toHexAux_succ]
      split_ifs with hv
      · rfl
      · have hd : v / 16 < v := Nat.div_lt_self (by omega) (by omega)
        rw [ih f2 (v / 16) (by omega) (by omega)]

theorem toHex_step (v : Nat) :
    toHex v = if v < 16 then [hexDigitChar v]
      else toHex (v / 16) ++ [hexDigitChar (v % 16)] := by
  unfold toHex
  rw [toHexAux_succ]
  split_ifs with hv
  · rfl
  · have hd : v / 16 < v := Nat.div_lt_self (by omega) (by omega)
    rw [toHexAux_irrel v (v / 16 + 1) (v / 16) (by omega) (by omega)]

theorem hexPad_step {k : Nat} (hk : 1 ≤ k) (v : Nat) :
    hexPad (k + 1) v = hexPad k (v / 16) ++ [hexDigitChar (v % 16)] := by
  unfold hexPad
  by_cases hv : v < 16
  · rw [toHex_step v, if_pos hv, Nat.div_eq_of_lt hv, Nat.mod_eq_of_lt hv]
    rw [show toHex 0 = ['0'] from rfl]
    simp only [List.length_cons, List.length_nil]
    rw [← List.replicate_succ' (k - (0 + 1)) '0']
    rw [show k - (0 + 1) + 1 = k + 1 - (0 + 1) from by omega]
  · rw [toHex_step v, if_neg hv]
    simp only [List.length_append, List.length_cons, List.length_nil]
    rw [show k + 1 - ((toHex (v / 16)).length + (0 + 1)) = k - (toHex (v / 16)).length
      from by omega]
    simp [List.append_assoc]

theorem hexPad_eq_beHexDigits : ∀ (k v : Nat), v < 16 ^ (k + 1) →
    hexPad (k + 1) v = beHexDigits (k + 1) v := by
  intro k
  induction k with
  | zero =>
    intro v hv
    rw [pow_one] at hv
    unfold hexPad
    rw [toHex_step v, if_pos hv]
    rw [beHexDigits_succ, Nat.div_eq_of_lt hv, Nat.mod_eq_of_lt hv]
    rfl
  | succ k ih =>
    intro v hv
    have hdiv : v / 16 < 16 ^ (k + 1) := by
      rw [Nat.div_lt_iff_lt_mul (by omega)]
      rw [← pow_succ]
      exact hv
    rw [hexPad_step (by omega) v, ih (v / 16) hdiv, beHexDigits_succ (k + 1) v]

theorem from_be_bytes_append (bs : List Nat) (b : Nat) :
    from_be_bytes (bs ++ [b]) = from_be_bytes bs * 256 + b := by
  unfold from_be_bytes
  rw [List.foldl_append]
  rfl

theorem hexCharsOfBytes_append (xs ys : List Nat) :
    hexCharsOfBytes (xs ++ ys) = hexCharsOfBytes xs ++ hexCharsOfBytes ys := by
  induction xs with
  | nil => rfl
  | cons b bs ih => simp [hexCharsOfBytes_cons, ih]

theorem from_be_bytes_lt : ∀ (bs : List Nat), (∀ b ∈ bs, b < 256) →
    from_be_bytes bs < 256 ^ bs.length := by
  intro bs
  induction bs using List.reverseRecOn with
  | nil => intro _; simp [from_be_bytes]
  | append_singleton bs b ih =>
    intro h
    have hb : b < 256 := h b (by simp)
    have hbs : from_be_bytes bs < 256 ^ bs.length := ih (fun x hx => h x (by simp [hx]))
    rw [from_be_bytes_append, List.length_append]
    simp only [List.length_cons, List.length_nil, Nat.zero_add]
    rw [pow_succ]
    generalize 256 ^ bs.length = e at *
    omega

theorem beHexDigits_bytes : ∀ (bs : List Nat), (∀ b ∈ bs, b < 256) →
    beHexDigits (2 * bs.length) (from_be_bytes bs) = hexCharsOfBytes bs := by
  intro bs
  induction bs using List.reverseRecOn with
  | nil => intro _; rfl
  | append_singleton bs b ih =>
    intro h
    have hb : b < 256 := h b (by simp)
    have ihh := ih (fun x hx => h x (by simp [hx]))
    rw [from_be_bytes_append, List.length_append]
    simp only [List.length_cons, List.length_nil]
    rw [show 2 * (bs.length + (0 + 1)) = (2 * bs.length + 1) + 1 from by omega]
    rw [beHexDigits_succ, beHexDigits_succ]
    have h1 : (from_be_bytes bs * 256 + b) % 16 = b % 16 := by omega
    have h2 : (from_be_bytes bs * 256 + b) / 16 = b / 16 + 16 * from_be_bytes bs := by omega
    rw [h1, h2]
    have h3 : (b / 16 + 16 * from_be_bytes bs) % 16 = b / 16 := by omega
    have h4 : (b / 16 + 16 * from_be_bytes bs) / 16 = from_be_bytes bs := by omega
    rw [h3, h4, ihh, hexCharsOfBytes_append]
    simp [hexCharsOfBytes_cons, hexCharsOfBytes, byteHexChars]

theorem hexPad_bytes (bs : List Nat) (w : Nat) (hw : w = 2 * bs.length)
    (hpos : 0 < bs.length) (h : ∀ b ∈ bs, b < 256) :
    hexPad w (from_be_bytes bs) = hexCharsOfBytes bs := by
  have hlt : from_be_bytes bs < 16 ^ (2 * bs.length) := by
    have hl := from_be_bytes_lt bs h
    calc from_be_bytes bs < 256 ^ bs.length := hl
    _ = 16 ^ (2 * bs.length) := by
        rw [show (256 : Nat) = 16 ^ 2 from by norm_num, ← pow_mul, Nat.mul_comm]
  subst hw
  obtain ⟨k, hk⟩ : ∃ k, 2 * bs.length = k + 1 := ⟨2 * bs.length - 1, by omega⟩
  rw [hk] at hlt ⊢
  rw [hexPad_eq_beHexDigits k _ hlt, ← hk]
  exact beHexDigits_bytes bs h

theorem utf8EncodeChar_ascii {c : Char} (h : c.toNat < 128) :
    utf8EncodeChar c = [c.toNat] := by
  unfold utf8EncodeChar
  rw [if_pos h]

theorem utf8Bytes_cons (c : Char) (cs : List Char) :
    utf8Bytes (c :: cs) = utf8EncodeChar c ++ utf8Bytes cs := rfl

theorem utf8Bytes_ascii : ∀ (s : List Char), (∀ c ∈ s, c.toNat < 128) →
    utf8Bytes s = s.map Char.toNat := by
  intro s
  induction s with
  | nil => intro _; rfl
  | cons c cs ih =>
    intro h
    rw [utf8Bytes_cons, utf8EncodeChar_ascii (h c (by simp)), List.map_cons]
    rw [ih (fun d hd => h d (by simp [hd]))]
    rfl

theorem utf8_head_big (c : Char) (h : 128 ≤ c.toNat) :
    ∃ b t, utf8EncodeChar c = b :: t ∧ 128 ≤ b := by
  unfold utf8EncodeChar
  split_ifs with h1 h2 h3
  · omega
  · exact ⟨_, _, rfl, by omega⟩
  · exact ⟨_, _, rfl, by omega⟩
  · exact ⟨_, _, rfl, by omega⟩

theorem ascii_of_utf8Bytes : ∀ (s : List Char), (∀ b ∈ utf8Bytes s, b < 128) →
    ∀ c ∈ s, c.toNat < 128 := by
  intro s
  induction s with
  | nil => simp
  | cons c cs ih =>
    intro h d hd
    rcases List.mem_cons.mp hd with rfl | hd2
    · by_contra hbig
      push_neg at hbig
      obtain ⟨b, t, he, hb⟩ := utf8_head_big d (by omega)
      have hmem : b ∈ utf8Bytes (d :: cs) := by
        rw [utf8Bytes_cons, he]
        simp
      have := h b hmem
      omega
    · refine ih (fun b hb => h b ?_) d hd2
      rw [utf8Bytes_cons]
      exact List.mem_append.mpr (Or.inr hb)

theorem char_eq_of_toNat {c d : Char} (h : c.toNat = d.toNat) : c = d :=
  Char.ext (UInt32.ext h)

theorem toNat_ofNat_small {v : Nat} (h : v < 55296) : (Char.ofNat v).toNat = v := by
  rw [Char.ofNat, dif_pos (Or.inl h)]
  simp [Char.ofNatAux, Char.toNat, UInt32.toNat]

theorem map_toNat_inj : ∀ {s t : List Char}, s.map Char.toNat = t.map Char.toNat → s = t := by
  intro s
  induction s with
  | nil =>
    intro t h
    cases t with
    | nil => rfl
    | cons d ds => simp at h
  | cons c cs ih =>
    intro t h
    cases t with
    | nil => simp at h
    | cons d ds =>
      simp only [List.map_cons, List.cons.injEq] at h
      rw [char_eq_of_toNat h.1, ih h.2]

theorem map_eq_append_inv {α β : Type} (f : α → β) :
    ∀ (a : List β) (s : List α) (b : List β), s.map f = a ++ b →
      ∃ s1 s2, s = s1 ++ s2 ∧ s1.map f = a ∧ s2.map f = b := by
  intro a
  induction a with
  | nil =>
    intro s b h
    exact ⟨[], s, rfl, rfl, by simpa using h⟩
  | cons x a ih =>
    intro s b h
    cases s with
    | nil => simp at h
    | cons c cs =>
      simp only [List.map_cons, List.cons_append, List.cons.injEq] at h
      obtain ⟨s1, s2, rfl, hm1, hm2⟩ := ih cs b h.2
      exact ⟨c :: s1, s2, rfl, by simp [hm1, h.1], hm2⟩

theorem fmt_chars (g : GUID) (h16 : g.data.length = 16) (hlt : ∀ b ∈ g.data, b < 256) :
    GUID.fmt g
      = hexCharsOfBytes (g.data.take 4) ++ ['-'] ++
        hexCharsOfBytes ((g.data.drop 4).take 2) ++ ['-'] ++
        hexCharsOfBytes ((g.data.drop 6).take 2) ++ ['-'] ++
        hexCharsOfBytes ((g.data.drop 8).take 2) ++ ['-'] ++
        hexCharsOfBytes ((g.data.drop 10).take 4) ++
        hexCharsOfBytes ((g.data.drop 14).take 2) := by
  have hmem : ∀ (j k : Nat), ∀ b ∈ (g.data.drop j).take k, b < 256 := fun j k b hb =>
    hlt b (List.mem_of_mem_drop (List.mem_of_mem_take hb))
  have hlen : ∀ (j k : Nat), j + k ≤ 16 → ((g.data.drop j).take k).length = k := by
    intro j k hjk
    simp only [List.length_take, List.length_drop, h16]
    omega
  have hl0 : (g.data.take 4).length = 4 := by
    simp only [List.length_take, h16]
    omega
  unfold GUID.fmt GUID.data1 GUID.data2 GUID.data3
  rw [hexPad_bytes (g.data.take 4) 8 (by rw [hl0]) (by rw [hl0]; omega)
    (fun b hb => hlt b (List.mem_of_mem_take hb))]
  rw [hexPad_bytes ((g.data.drop 4).take 2) 4 (by rw [hlen 4 2 (by omega)])
    (by rw [hlen 4 2 (by omega)]; omega) (hmem 4 2)]
  rw [hexPad_bytes ((g.data.drop 6).take 2) 4 (by rw [hlen 6 2 (by omega)])
    (by rw [hlen 6 2 (by omega)]; omega) (hmem 6 2)]
  rw [hexPad_bytes ((g.data.drop 8).take 2) 4 (by rw [hlen 8 2 (by omega)])
    (by rw [hlen 8 2 (by omega)]; omega) (hmem 8 2)]
  rw [hexPad_bytes ((g.data.drop 10).take 4) 8 (by rw [hlen 10 4 (by omega)])
    (by rw [hlen 10 4 (by omega)]; omega) (hmem 10 4)]
  rw [hexPad_bytes ((g.data.drop 14).take 2) 4 (by rw [hlen 14 2 (by omega)])
    (by rw [hlen 14 2 (by omega)]; omega) (hmem 14 2)]

theorem take_chain (l : List Nat) (h16 : l.length = 16) :
    l.take 4 ++ (l.drop 4).take 2 ++ (l.drop 6).take 2 ++ (l.drop 8).take 2
      ++ (l.drop 10).take 4 ++ (l.drop 14).take 2 = l := by
  have t6 : l.take 4 ++ (l.drop 4).take 2 = l.take 6 := by
    rw [show (6 : Nat) = 4 + 2 from rfl, List.take_add]
  have t8 : l.take 6 ++ (l.drop 6).take 2 = l.take 8 := by
    rw [show (8 : Nat) = 6 + 2 from rfl, List.take_add]
  have t10 : l.take 8 ++ (l.drop 8).take 2 = l.take 10 := by
    rw [show (10 : Nat) = 8 + 2 from rfl, List.take_add]
  have t14 : l.take 10 ++ (l.drop 10).take 4 = l.take 14 := by
    rw [show (14 : Nat) = 10 + 4 from rfl, List.take_add]
  have t16 : l.take 14 ++ (l.drop 14).take 2 = l.take 16 := by
    rw [show (16 : Nat) = 14 + 2 from rfl, List.take_add]
  rw [t6, t8, t10, t14, t16, ← h16, List.take_length]

/-- The UTF-8 byte values of the hex rendering of a byte list. -/
def hexBytesOfBytes (bs : List Nat) : List Nat := (hexCharsOfBytes bs).map Char.toNat

theorem hexBytesOfBytes_cons (b : Nat) (bs : List Nat) :
    hexBytesOfBytes (b :: bs)
      = (hexDigitChar (b / 16)).toNat :: (hexDigitChar (b % 16)).toNat
        :: hexBytesOfBytes bs := rfl

theorem hexBytesOfBytes_append (xs ys : List Nat) :
    hexBytesOfBytes (xs ++ ys) = hexBytesOfBytes xs ++ hexBytesOfBytes ys := by
  unfold hexBytesOfBytes
  rw [hexCharsOfBytes_append, List.map_append]

theorem hexDigitChar_lt_128 : ∀ v, v < 16 → (hexDigitChar v).toNat < 128 := by decide

theorem n_hexDigitChar : ∀ v, v < 16 → n (hexDigitChar v).toNat = .ok v := by decide

theorem hexCharsOfBytes_ascii : ∀ (bs : List Nat), (∀ b ∈ bs, b < 256) →
    ∀ c ∈ hexCharsOfBytes bs, c.toNat < 128 := by
  intro bs
  induction bs with
  | nil => simp [hexCharsOfBytes]
  | cons b t ih =>
    intro h c hc
    have hb : b < 256 := h b (by simp)
    rw [hexCharsOfBytes_cons] at hc
    rcases List.mem_append.mp hc with hc1 | hc2
    · unfold byteHexChars at hc1
      rcases List.mem_cons.mp hc1 with rfl | hc1'
      · exact hexDigitChar_lt_128 _ (by omega)
      · rcases List.mem_cons.mp hc1' with rfl | hnil
        · exact hexDigitChar_lt_128 _ (by omega)
        · simp at hnil
    · exact ih (fun x hx => h x (by simp [hx])) c hc2

theorem fill_hexBytes : ∀ (bs : List Nat), (∀ b ∈ bs, b < 256) →
    ∀ (t : List Nat), fill bs.length (hexBytesOfBytes bs ++ t) = .ok (bs, t) := by
  intro bs
  induction bs with
  | nil => intro _ t; rfl
  | cons b bs ih =>
    intro h t
    have hb : b < 256 := h b (by simp)
    rw [hexBytesOfBytes_cons]
    simp only [List.cons_append]
    rw [List.length_cons, fill_succ, hexbyte_cons]
    rw [n_hexDigitChar (b / 16) (by omega)]
    simp only [PResult.bind]
    rw [n_hexDigitChar (b % 16) (by omega)]
    simp only [PResult.bind]
    unfold mul16_add_u8
    rw [if_pos (by omega)]
    simp only [PResult.bind]
    rw [ih (fun x hx => h x (by simp [hx])) t]
    simp only [PResult.bind]
    rw [show b / 16 * 16 + b % 16 = b from by omega]

theorem parse_bytes_hexBytes (B1 B2 B3 B4 B5 B6 : List Nat)
    (l1 : B1.length = 4) (l2 : B2.length = 2) (l3 : B3.length = 2)
    (l4 : B4.length = 2) (l5 : B5.length = 4) (l6 : B6.length = 2)
    (hb : ∀ b ∈ B1 ++ B2 ++ B3 ++ B4 ++ B5 ++ B6, b < 256) :
    GUID.parse_bytes (hexBytesOfBytes B1 ++ [45] ++ hexBytesOfBytes B2 ++ [45]
      ++ hexBytesOfBytes B3 ++ [45] ++ hexBytesOfBytes B4 ++ [45]
      ++ hexBytesOfBytes B5 ++ hexBytesOfBytes B6)
      = .ok ⟨B1 ++ B2 ++ B3 ++ B4 ++ (B5 ++ B6)⟩ := by
  have hb1 : ∀ b ∈ B1, b < 256 := fun b h => hb b (by simp [h])
  have hb2 : ∀ b ∈ B2, b < 256 := fun b h => hb b (by simp [h])
  have hb3 : ∀ b ∈ B3, b < 256 := fun b h => hb b (by simp [h])
  have hb4 : ∀ b ∈ B4, b < 256 := fun b h => hb b (by simp [h])
  have hb56 : ∀ b ∈ B5 ++ B6, b < 256 := by
    intro b h
    rcases List.mem_append.mp h with h5 | h6
    · exact hb b (by simp [h5])
    · exact hb b (by simp [h6])
  unfold GUID.parse_bytes
  have hshape : hexBytesOfBytes B1 ++ [45] ++ hexBytesOfBytes B2 ++ [45]
      ++ hexBytesOfBytes B3 ++ [45] ++ hexBytesOfBytes B4 ++ [45]
      ++ hexBytesOfBytes B5 ++ hexBytesOfBytes B6
      = hexBytesOfBytes B1 ++ (45 :: (hexBytesOfBytes B2 ++ (45 ::
        (hexBytesOfBytes B3 ++ (45 :: (hexBytesOfBytes B4 ++ (45 ::
        (hexBytesOfBytes (B5 ++ B6) ++ [])))))))) := by
    rw [hexBytesOfBytes_append]
    simp
  rw [hshape]
  have f1 := fill_hexBytes B1 hb1
  rw [l1] at f1
  rw [f1]
  simp only [PResult.bind]
  rw [strip_dash_dash]
  simp only [PResult.bind]
  have f2 := fill_hexBytes B2 hb2
  rw [l2] at f2
  rw [f2]
  simp only [PResult.bind]
  rw [strip_dash_dash]
  simp only [PResult.bind]
  have f3 := fill_hexBytes B3 hb3
  rw [l3] at f3
  rw [f3]
  simp only [PResult.bind]
  rw [strip_dash_dash]
  simp only [PResult.bind]
  have f4 := fill_hexBytes B4 hb4
  rw [l4] at f4
  rw [f4]
  simp only [PResult.bind]
  rw [strip_dash_dash]
  simp only [PResult.bind]
  have f56 := fill_hexBytes (B5 ++ B6) hb56
  rw [show (B5 ++ B6).length = 6 from by simp [l5, l6]] at f56
  rw [f56]
  simp [PResult.bind]

/-- Round trip at the heart of the crate: formatting then parsing a
well-formed GUID returns it unchanged. -/
theorem parse_fmt (g : GUID) (hwf : g.wf) : GUID.parse (GUID.fmt g) = .ok g := by
  obtain ⟨h16, hlt⟩ := hwf
  unfold GUID.parse
  rw [fmt_chars g h16 hlt]
  have hmem : ∀ (j k : Nat), ∀ b ∈ (g.data.drop j).take k, b < 256 := fun j k b hb =>
    hlt b (List.mem_of_mem_drop (List.mem_of_mem_take hb))
  have hascii : ∀ c ∈ hexCharsOfBytes (g.data.take 4) ++ ['-'] ++
      hexCharsOfBytes ((g.data.drop 4).take 2) ++ ['-'] ++
      hexCharsOfBytes ((g.data.drop 6).take 2) ++ ['-'] ++
      hexCharsOfBytes ((g.data.drop 8).take 2) ++ ['-'] ++
      hexCharsOfBytes ((g.data.drop 10).take 4) ++
      hexCharsOfBytes ((g.data.drop 14).take 2), c.toNat < 128 := by
    intro c hc
    simp only [List.mem_append] at hc
    rcases hc with ((((((((hc | hc) | hc) | hc) | hc) | hc) | hc) | hc) | hc) | hc
    · exact hexCharsOfBytes_ascii _ (fun b hb => hlt b (List.mem_of_mem_take hb)) c hc
    · simp at hc
      rw [hc]
      decide
    · exact hexCharsOfBytes_ascii _ (hmem 4 2) c hc
    · simp at hc
      rw [hc]
      decide
    · exact hexCharsOfBytes_ascii _ (hmem 6 2) c hc
    · simp at hc
      rw [hc]
      decide
    · exact hexCharsOfBytes_ascii _ (hmem 8 2) c hc
    · simp at hc
      rw [hc]
      decide
    · exact hexCharsOfBytes_ascii _ (hmem 10 4) c hc
    · exact hexCharsOfBytes_ascii _ (hmem 14 2) c hc
  rw [utf8Bytes_ascii _ hascii]
  simp only [List.map_append]
  rw [show List.map Char.toNat ['-'] = [45] from by decide]
  have hlen : ∀ (j k : Nat), j + k ≤ 16 → ((g.data.drop j).take k).length = k := by
    intro j k hjk
    simp only [List.length_take, List.length_drop, h16]
    omega
  have hmain := parse_bytes_hexBytes (g.data.take 4) ((g.data.drop 4).take 2)
    ((g.data.drop 6).take 2) ((g.data.drop 8).take 2) ((g.data.drop 10).take 4)
    ((g.data.drop 14).take 2)
    (by simp only [List.length_take, h16]; omega)
    (hlen 4 2 (by omega)) (hlen 6 2 (by omega)) (hlen 8 2 (by omega))
    (hlen 10 4 (by omega)) (hlen 14 2 (by omega))
    (by
      intro b hb
      simp only [List.mem_append] at hb
      rcases hb with ((((hb | hb) | hb) | hb) | hb) | hb
      · exact hlt b (List.mem_of_mem_take hb)
      · exact hmem 4 2 b hb
      · exact hmem 6 2 b hb
      · exact hmem 8 2 b hb
      · exact hmem 10 4 b hb
      · exact hmem 14 2 b hb)
  rw [show (hexCharsOfBytes (g.data.take 4)).map Char.toNat ++ [45] ++
      (hexCharsOfBytes ((g.data.drop 4).take 2)).map Char.toNat ++ [45] ++
      (hexCharsOfBytes ((g.data.drop 6).take 2)).map Char.toNat ++ [45] ++
      (hexCharsOfBytes ((g.data.drop 8).take 2)).map Char.toNat ++ [45] ++
      (hexCharsOfBytes ((g.data.drop 10).take 4)).map Char.toNat ++
      (hexCharsOfBytes ((g.data.drop 14).take 2)).map Char.toNat
      = hexBytesOfBytes (g.data.take 4) ++ [45] ++
        hexBytesOfBytes ((g.data.drop 4).take 2) ++ [45] ++
        hexBytesOfBytes ((g.data.drop 6).take 2) ++ [45] ++
        hexBytesOfBytes ((g.data.drop 8).take 2) ++ [45] ++
        hexBytesOfBytes ((g.data.drop 10).take 4) ++
        hexBytesOfBytes ((g.data.drop 14).take 2) from rfl]
  rw [hmain]
  congr 1
  cases g with
  | mk data =>
    simp only [GUID.mk.injEq]
    have := take_chain data h16
    simp only [List.append_assoc] at this ⊢
    exact this

theorem pairVals_length : ∀ (pre : List Nat), (pairVals pre).length = pre.length / 2
  | [] => by simp [pairVals]
  | [a] => by simp [pairVals]
  | a :: b :: rest => by
    rw [pairVals_cons]
    simp only [List.length_cons]
    rw [pairVals_length rest]
    omega

theorem pairVals_lt : ∀ (pre : List Nat), (∀ b ∈ pre, isHexByte b = true) →
    ∀ d ∈ pairVals pre, d < 256
  | [] => by simp [pairVals]
  | [a] => by simp [pairVals]
  | a :: b :: rest => by
    intro h d hd
    rw [pairVals_cons] at hd
    rcases List.mem_cons.mp hd with rfl | hd2
    · have h1 := hexVal_lt (h a (by simp))
      have h2 := hexVal_lt (h b (by simp))
      omega
    · exact pairVals_lt rest (fun x hx => h x (by simp [hx])) d hd2

/-- The hex-digit character class of the parser, at the character level. -/
def isHexDigitChar (c : Char) : Bool := isHexByte c.toNat

/-- The canonical grammar of the spec: five case-insensitive hex-digit groups
of lengths 8, 4, 4, 4 and 12, separated by single dashes, with no other
characters before, between or after the groups. -/
def charGrammar (s : List Char) : Prop :=
  ∃ g1 g2 g3 g4 g5 : List Char,
    s = g1 ++ ['-'] ++ g2 ++ ['-'] ++ g3 ++ ['-'] ++ g4 ++ ['-'] ++ g5 ∧
    g1.length = 8 ∧ g2.length = 4 ∧ g3.length = 4 ∧ g4.length = 4 ∧ g5.length = 12 ∧
    ∀ c ∈ g1 ++ g2 ++ g3 ++ g4 ++ g5, isHexDigitChar c = true

theorem map_toNat_dash {t : List Char} (h : t.map Char.toNat = [45]) : t = ['-'] := by
  cases t with
  | nil => simp at h
  | cons c cs =>
    simp only [List.map_cons, List.cons.injEq] at h
    obtain ⟨hc, hcs⟩ := h
    obtain rfl : cs = [] := List.map_eq_nil_iff.mp hcs
    have hcd : c = '-' := char_eq_of_toNat (by rw [hc]; rfl)
    rw [hcd]

theorem hex_chars_of_map {t : List Char} {q : List Nat} (hm : t.map Char.toNat = q)
    (hq : ∀ b ∈ q, isHexByte b = true) : ∀ c ∈ t, isHexDigitChar c = true := by
  intro c hc
  have : c.toNat ∈ q := by
    rw [← hm]
    exact List.mem_map.mpr ⟨c, hc, rfl⟩
  exact hq c.toNat this

/-- Inversion of a successful parse, at the character level: the input
decomposes into the five dash-separated hex groups, and the result's bytes are
the decoded digit pairs. -/
theorem parse_ok_decomp {s : List Char} {g : GUID} (h : GUID.parse s = .ok g) :
    ∃ t1 t2 t3 t4 t5 : List Char,
      s = t1 ++ ['-'] ++ t2 ++ ['-'] ++ t3 ++ ['-'] ++ t4 ++ ['-'] ++ t5 ∧
      t1.length = 8 ∧ t2.length = 4 ∧ t3.length = 4 ∧ t4.length = 4 ∧ t5.length = 12 ∧
      (∀ c ∈ t1 ++ t2 ++ t3 ++ t4 ++ t5, isHexDigitChar c = true) ∧
      g = ⟨pairVals (t1.map Char.toNat) ++ pairVals (t2.map Char.toNat)
        ++ pairVals (t3.map Char.toNat) ++ pairVals (t4.map Char.toNat)
        ++ pairVals (t5.map Char.toNat)⟩ := by
  unfold GUID.parse at h
  obtain ⟨q1, q2, q3, q4, q5, hs, hl1, hl2, hl3, hl4, hl5, hhex, hg⟩ := parse_bytes_ok_inv h
  have hq1 : ∀ b ∈ q1, isHexByte b = true := fun b hb => hhex b (by simp [hb])
  have hq2 : ∀ b ∈ q2, isHexByte b = true := fun b hb => hhex b (by simp [hb])
  have hq3 : ∀ b ∈ q3, isHexByte b = true := fun b hb => hhex b (by simp [hb])
  have hq4 : ∀ b ∈ q4, isHexByte b = true := fun b hb => hhex b (by simp [hb])
  have hq5 : ∀ b ∈ q5, isHexByte b = true := fun b hb => hhex b (by simp [hb])
  have hlt : ∀ b ∈ utf8Bytes s, b < 128 := by
    intro b hb
    rw [hs] at hb
    simp only [List.mem_append, List.mem_singleton] at hb
    rcases hb with (((((((hb | hb) | hb) | hb) | hb) | hb) | hb) | hb) | hb
    · have := isHexByte_bounds (hq1 b hb); omega
    · omega
    · have := isHexByte_bounds (hq2 b hb); omega
    · omega
    · have := isHexByte_bounds (hq3 b hb); omega
    · omega
    · have := isHexByte_bounds (hq4 b hb); omega
    · omega
    · have := isHexByte_bounds (hq5 b hb); omega
  have hchars := ascii_of_utf8Bytes s hlt
  have hmap : s.map Char.toNat
      = q1 ++ ([45] ++ (q2 ++ ([45] ++ (q3 ++ ([45] ++ (q4 ++ ([45] ++ q5))))))) := by
    rw [← utf8Bytes_ascii s hchars, hs]
    simp [List.append_assoc]
  obtain ⟨t1, r1, rfl, hm1, hr1⟩ := map_eq_append_inv Char.toNat q1 s _ hmap
  obtain ⟨d1, r2, rfl, hd1, hr2⟩ := map_eq_append_inv Char.toNat [45] r1 _ hr1
  obtain ⟨t2, r3, rfl, hm2, hr3⟩ := map_eq_append_inv Char.toNat q2 r2 _ hr2
  obtain ⟨d2, r4, rfl, hd2, hr4⟩ := map_eq_append_inv Char.toNat [45] r3 _ hr3
  obtain ⟨t3, r5, rfl, hm3, hr5⟩ := map_eq_append_inv Char.toNat q3 r4 _ hr4
  obtain ⟨d3, r6, rfl, hd3, hr6⟩ := map_eq_append_inv Char.toNat [45] r5 _ hr5
  obtain ⟨t4, r7, rfl, hm4, hr7⟩ := map_eq_append_inv Char.toNat q4 r6 _ hr6
  obtain ⟨d4, t5, rfl, hd4, hm5⟩ := map_eq_append_inv Char.toNat [45] r7 _ hr7
  rw [map_toNat_dash hd1, map_toNat_dash hd2, map_toNat_dash hd3, map_toNat_dash hd4]
  refine ⟨t1, t2, t3, t4, t5, by simp [List.append_assoc], ?_, ?_, ?_, ?_, ?_, ?_, ?_⟩
  · rw [← hl1, ← hm1, List.length_map]
  · rw [← hl2, ← hm2, List.length_map]
  · rw [← hl3, ← hm3, List.length_map]
  · rw [← hl4, ← hm4, List.length_map]
  · rw [← hl5, ← hm5, List.length_map]
  · intro c hc
    simp only [List.mem_append] at hc
    rcases hc with (((hc | hc) | hc) | hc) | hc
    · exact hex_chars_of_map hm1 hq1 c hc
    · exact hex_chars_of_map hm2 hq2 c hc
    · exact hex_chars_of_map hm3 hq3 c hc
    · exact hex_chars_of_map hm4 hq4 c hc
    · exact hex_chars_of_map hm5 hq5 c hc
  · rw [hg, hm1, hm2, hm3, hm4, hm5]

theorem charGrammar_of_parse_ok {s : List Char} {g : GUID}
    (h : GUID.parse s = .ok g) : charGrammar s := by
  obtain ⟨t1, t2, t3, t4, t5, hs, hl1, hl2, hl3, hl4, hl5, hhex, _⟩ := parse_ok_decomp h
  exact ⟨t1, t2, t3, t4, t5, hs, hl1, hl2, hl3, hl4, hl5, hhex⟩

theorem parse_of_charGrammar_eq {g1 g2 g3 g4 g5 : List Char}
    (hl1 : g1.length = 8) (hl2 : g2.length = 4) (hl3 : g3.length = 4)
    (hl4 : g4.length = 4) (hl5 : g5.length = 12)
    (hhex : ∀ c ∈ g1 ++ g2 ++ g3 ++ g4 ++ g5, isHexDigitChar c = true) :
    GUID.parse (g1 ++ ['-'] ++ g2 ++ ['-'] ++ g3 ++ ['-'] ++ g4 ++ ['-'] ++ g5)
      = .ok ⟨pairVals (g1.map Char.toNat) ++ pairVals (g2.map Char.toNat)
        ++ pairVals (g3.map Char.toNat) ++ pairVals (g4.map Char.toNat)
        ++ pairVals (g5.map Char.toNat)⟩ := by
  have hhex1 : ∀ c ∈ g1, isHexDigitChar c = true := fun c hc => hhex c (by simp [hc])
  have hhex2 : ∀ c ∈ g2, isHexDigitChar c = true := fun c hc => hhex c (by simp [hc])
  have hhex3 : ∀ c ∈ g3, isHexDigitChar c = true := fun c hc => hhex c (by simp [hc])
  have hhex4 : ∀ c ∈ g4, isHexDigitChar c = true := fun c hc => hhex c (by simp [hc])
  have hhex5 : ∀ c ∈ g5, isHexDigitChar c = true := fun c hc => hhex c (by simp [hc])
  have hascii : ∀ c ∈ g1 ++ ['-'] ++ g2 ++ ['-'] ++ g3 ++ ['-'] ++ g4 ++ ['-'] ++ g5,
      c.toNat < 128 := by
    intro c hc
    simp only [List.mem_append, List.mem_singleton] at hc
    rcases hc with (((((((hc | hc) | hc) | hc) | hc) | hc) | hc) | hc) | hc
    · have := isHexByte_bounds (hhex1 c hc); omega
    · rw [hc]; decide
    · have := isHexByte_bounds (hhex2 c hc); omega
    · rw [hc]; decide
    · have := isHexByte_bounds (hhex3 c hc); omega
    · rw [hc]; decide
    · have := isHexByte_bounds (hhex4 c hc); omega
    · rw [hc]; decide
    · have := isHexByte_bounds (hhex5 c hc); omega
  unfold GUID.parse
  rw [utf8Bytes_ascii _ hascii]
  simp only [List.map_append]
  rw [show List.map Char.toNat ['-'] = [45] from by decide]
  have hqex : ∀ (t : List Char), (∀ c ∈ t, isHexDigitChar c = true) →
      ∀ b ∈ t.map Char.toNat, isHexByte b = true := by
    intro t ht b hb
    obtain ⟨c, hc, rfl⟩ := List.mem_map.mp hb
    exact ht c hc
  exact parse_bytes_groups (g1.map Char.toNat) (g2.map Char.toNat) (g3.map Char.toNat)
    (g4.map Char.toNat) (g5.map Char.toNat)
    (by rw [List.length_map, hl1]) (by rw [List.length_map, hl2])
    (by rw [List.length_map, hl3]) (by rw [List.length_map, hl4])
    (by rw [List.length_map, hl5])
    (by
      intro b hb
      simp only [List.mem_append] at hb
      rcases hb with (((hb | hb) | hb) | hb) | hb
      · exact hqex g1 hhex1 b hb
      · exact hqex g2 hhex2 b hb
      · exact hqex g3 hhex3 b hb
      · exact hqex g4 hhex4 b hb
      · exact hqex g5 hhex5 b hb)

theorem parse_ok_of_charGrammar {s : List Char} (h : charGrammar s) :
    ∃ g : GUID, GUID.parse s = .ok g := by
  obtain ⟨g1, g2, g3, g4, g5, rfl, hl1, hl2, hl3, hl4, hl5, hhex⟩ := h
  exact ⟨_, parse_of_charGrammar_eq hl1 hl2 hl3 hl4 hl5 hhex⟩

/-- ASCII uppercase of one byte value. -/
def upcaseByte (b : Nat) : Nat := if 97 ≤ b ∧ b ≤ 122 then b - 32 else b

/-- ASCII uppercase normalization of one character (the canonical
case-normalization of the spec). -/
def upcaseChar (c : Char) : Char :=
  if 97 ≤ c.toNat ∧ c.toNat ≤ 122 then Char.ofNat (c.toNat - 32) else c

theorem upcaseChar_toNat (c : Char) : (upcaseChar c).toNat = upcaseByte c.toNat := by
  unfold upcaseChar upcaseByte
  split_ifs with h
  · exact toNat_ofNat_small (by omega)
  · rfl

theorem hexDigit_upcase : ∀ b, b < 128 → isHexByte b = true →
    (hexDigitChar (hexVal b)).toNat = upcaseByte b := by decide

theorem hexChars_pairVals : ∀ (pre : List Nat), (∀ b ∈ pre, isHexByte b = true) →
    pre.length % 2 = 0 →
    (hexCharsOfBytes (pairVals pre)).map Char.toNat = pre.map upcaseByte
  | [] => by intro _ _; rfl
  | [a] => by
    intro _ hl
    simp at hl
  | a :: b :: rest => by
    intro h hlen
    have ha := h a (by simp)
    have hb := h b (by simp)
    have hva := hexVal_lt ha
    have hvb := hexVal_lt hb
    have hba := isHexByte_bounds ha
    have hbb := isHexByte_bounds hb
    rw [pairVals_cons, hexCharsOfBytes_cons]
    unfold byteHexChars
    rw [show (hexVal a * 16 + hexVal b) / 16 = hexVal a from by omega,
      show (hexVal a * 16 + hexVal b) % 16 = hexVal b from by omega]
    simp only [List.map_append, List.map_cons, List.map_nil]
    rw [hexChars_pairVals rest (fun x hx => h x (by simp [hx]))
      (by simp only [List.length_cons] at hlen ⊢; omega)]
    rw [hexDigit_upcase a (by omega) ha, hexDigit_upcase b (by omega) hb]
    simp

theorem fmt_append_groups (P1 P2 P3 P4 P5 : List Nat)
    (l1 : P1.length = 4) (l2 : P2.length = 2) (l3 : P3.length = 2)
    (l4 : P4.length = 2) (l5 : P5.length = 6)
    (hlt : ∀ b ∈ P1 ++ (P2 ++ (P3 ++ (P4 ++ P5))), b < 256) :
    GUID.fmt ⟨P1 ++ (P2 ++ (P3 ++ (P4 ++ P5)))⟩
      = hexCharsOfBytes P1 ++ ['-'] ++ hexCharsOfBytes P2 ++ ['-'] ++
        hexCharsOfBytes P3 ++ ['-'] ++ hexCharsOfBytes P4 ++ ['-'] ++
        hexCharsOfBytes P5 := by
  have h16 : (P1 ++ (P2 ++ (P3 ++ (P4 ++ P5)))).length = 16 := by
    simp [l1, l2, l3, l4, l5]
  have hdata : (GUID.mk (P1 ++ (P2 ++ (P3 ++ (P4 ++ P5))))).data
      = P1 ++ (P2 ++ (P3 ++ (P4 ++ P5))) := rfl
  rw [fmt_chars _ (by rw [hdata]; exact h16) (by rw [hdata]; exact hlt)]
  rw [hdata]
  have d4 : (P1 ++ (P2 ++ (P3 ++ (P4 ++ P5)))).drop 4 = P2 ++ (P3 ++ (P4 ++ P5)) :=
    List.drop_left' l1
  have d6 : (P1 ++ (P2 ++ (P3 ++ (P4 ++ P5)))).drop 6 = P3 ++ (P4 ++ P5) := by
    rw [show (6 : Nat) = 4 + 2 from rfl, ← List.drop_drop, d4, List.drop_left' l2]
  have d8 : (P1 ++ (P2 ++ (P3 ++ (P4 ++ P5)))).drop 8 = P4 ++ P5 := by
    rw [show (8 : Nat) = 6 + 2 from rfl, ← List.drop_drop, d6, List.drop_left' l3]
  have d10 : (P1 ++ (P2 ++ (P3 ++ (P4 ++ P5)))).drop 10 = P5 := by
    rw [show (10 : Nat) = 8 + 2 from rfl, ← List.drop_drop, d8, List.drop_left' l4]
  have d14 : (P1 ++ (P2 ++ (P3 ++ (P4 ++ P5)))).drop 14 = P5.drop 4 := by
    rw [show (14 : Nat) = 10 + 4 from rfl, ← List.drop_drop, d10]
  rw [List.take_left' l1, d4, List.take_left' l2, d6, List.take_left' l3, d8,
    List.take_left' l4, d10, d14]
  rw [List.take_of_length_le (by simp [l5] : (P5.drop 4).length ≤ 2)]
  simp only [List.append_assoc]
  rw [show hexCharsOfBytes (P5.take 4) ++ hexCharsOfBytes (P5.drop 4)
      = hexCharsOfBytes (P5.take 4 ++ P5.drop 4) from (hexCharsOfBytes_append _ _).symm]
  rw [List.take_append_drop]

theorem hex_bytes_of_chars {t : List Char} (ht : ∀ c ∈ t, isHexDigitChar c = true) :
    ∀ b ∈ t.map Char.toNat, isHexByte b = true := by
  intro b hb
  obtain ⟨c, hc, rfl⟩ := List.mem_map.mp hb
  exact ht c hc

/-- A successful parse yields a well-formed GUID, and formatting it gives
back the input with hex digits normalized to uppercase. -/
theorem fmt_of_parse {s : List Char} {g : GUID} (h : GUID.parse s = .ok g) :
    g.wf ∧ GUID.fmt g = s.map upcaseChar := by
  obtain ⟨t1, t2, t3, t4, t5, rfl, hl1, hl2, hl3, hl4, hl5, hhex, hg⟩ := parse_ok_decomp h
  have hx1 : ∀ c ∈ t1, isHexDigitChar c = true := fun c hc => hhex c (by simp [hc])
  have hx2 : ∀ c ∈ t2, isHexDigitChar c = true := fun c hc => hhex c (by simp [hc])
  have hx3 : ∀ c ∈ t3, isHexDigitChar c = true := fun c hc => hhex c (by simp [hc])
  have hx4 : ∀ c ∈ t4, isHexDigitChar c = true := fun c hc => hhex c (by simp [hc])
  have hx5 : ∀ c ∈ t5, isHexDigitChar c = true := fun c hc => hhex c (by simp [hc])
  have hq1 := hex_bytes_of_chars hx1
  have hq2 := hex_bytes_of_chars hx2
  have hq3 := hex_bytes_of_chars hx3
  have hq4 := hex_bytes_of_chars hx4
  have hq5 := hex_bytes_of_chars hx5
  have hP1len : (pairVals (t1.map Char.toNat)).length = 4 := by
    rw [pairVals_length, List.length_map, hl1]
  have hP2len : (pairVals (t2.map Char.toNat)).length = 2 := by
    rw [pairVals_length, List.length_map, hl2]
  have hP3len : (pairVals (t3.map Char.toNat)).length = 2 := by
    rw [pairVals_length, List.length_map, hl3]
  have hP4len : (pairVals (t4.map Char.toNat)).length = 2 := by
    rw [pairVals_length, List.length_map, hl4]
  have hP5len : (pairVals (t5.map Char.toNat)).length = 6 := by
    rw [pairVals_length, List.length_map, hl5]
  have hP1lt := pairVals_lt _ hq1
  have hP2lt := pairVals_lt _ hq2
  have hP3lt := pairVals_lt _ hq3
  have hP4lt := pairVals_lt _ hq4
  have hP5lt := pairVals_lt _ hq5
  have hmemall : ∀ b ∈ pairVals (t1.map Char.toNat) ++ (pairVals (t2.map Char.toNat)
      ++ (pairVals (t3.map Char.toNat) ++ (pairVals (t4.map Char.toNat)
      ++ pairVals (t5.map Char.toNat)))), b < 256 := by
    intro b hb
    simp only [List.mem_append] at hb
    rcases hb with hb | hb | hb | hb | hb
    · exact hP1lt b hb
    · exact hP2lt b hb
    · exact hP3lt b hb
    · exact hP4lt b hb
    · exact hP5lt b hb
  have hassoc : pairVals (t1.map Char.toNat) ++ pairVals (t2.map Char.toNat)
      ++ pairVals (t3.map Char.toNat) ++ pairVals (t4.map Char.toNat)
      ++ pairVals (t5.map Char.toNat)
      = pairVals (t1.map Char.toNat) ++ (pairVals (t2.map Char.toNat)
      ++ (pairVals (t3.map Char.toNat) ++ (pairVals (t4.map Char.toNat)
      ++ pairVals (t5.map Char.toNat)))) := by
    simp [List.append_assoc]
  constructor
  · rw [hg]
    constructor
    · simp only [GUID.wf]
      simp [hP1len, hP2len, hP3len, hP4len, hP5len]
    · intro b hb
      rw [show (GUID.mk (pairVals (t1.map Char.toNat) ++ pairVals (t2.map Char.toNat)
        ++ pairVals (t3.map Char.toNat) ++ pairVals (t4.map Char.toNat)
        ++ pairVals (t5.map Char.toNat))).data
        = pairVals (t1.map Char.toNat) ++ pairVals (t2.map Char.toNat)
        ++ pairVals (t3.map Char.toNat) ++ pairVals (t4.map Char.toNat)
        ++ pairVals (t5.map Char.toNat) from rfl, hassoc] at hb
      exact hmemall b hb
  · rw [hg, show (GUID.mk (pairVals (t1.map Char.toNat) ++ pairVals (t2.map Char.toNat)
      ++ pairVals (t3.map Char.toNat) ++ pairVals (t4.map Char.toNat)
      ++ pairVals (t5.map Char.toNat)))
      = GUID.mk (pairVals (t1.map Char.toNat) ++ (pairVals (t2.map Char.toNat)
      ++ (pairVals (t3.map Char.toNat) ++ (pairVals (t4.map Char.toNat)
      ++ pairVals (t5.map Char.toNat))))) from by rw [hassoc]]
    rw [fmt_append_groups _ _ _ _ _ hP1len hP2len hP3len hP4len hP5len hmemall]
    apply map_toNat_inj
    simp only [List.map_append, List.map_map]
    rw [hexChars_pairVals _ hq1 (by rw [List.length_map, hl1])]
    rw [hexChars_pairVals _ hq2 (by rw [List.length_map, hl2])]
    rw [hexChars_pairVals _ hq3 (by rw [List.length_map, hl3])]
    rw [hexChars_pairVals _ hq4 (by rw [List.length_map, hl4])]
    rw [hexChars_pairVals _ hq5 (by rw [List.length_map, hl5])]
    rw [show Char.toNat ∘ upcaseChar = upcaseByte ∘ Char.toNat from funext upcaseChar_toNat]
    simp only [← List.map_map]
    simp only [show List.map Char.toNat ['-'] = [45] from by decide,
      show List.map upcaseByte [45] = [45] from by decide]

theorem length_succ_cons {l : List Nat} {k : Nat} (h : l.length = k + 1) :
    ∃ a t, l = a :: t ∧ t.length = k := by
  cases l with
  | nil => simp at h
  | cons a t => exact ⟨a, t, rfl, by simpa using h⟩

theorem list_len16 {l : List Nat} (h : l.length = 16) :
    ∃ a0 a1 a2 a3 a4 a5 a6 a7 a8 a9 a10 a11 a12 a13 a14 a15,
      l = [a0, a1, a2, a3, a4, a5, a6, a7, a8, a9, a10, a11, a12, a13, a14, a15] := by
  obtain ⟨a0, t0, rfl, h0⟩ := length_succ_cons h
  obtain ⟨a1, t1, rfl, h1⟩ := length_succ_cons h0
  obtain ⟨a2, t2, rfl, h2⟩ := length_succ_cons h1
  obtain ⟨a3, t3, rfl, h3⟩ := length_succ_cons h2
  obtain ⟨a4, t4, rfl, h4⟩ := length_succ_cons h3
  obtain ⟨a5, t5, rfl, h5⟩ := length_succ_cons h4
  obtain ⟨a6, t6, rfl, h6⟩ := length_succ_cons h5
  obtain ⟨a7, t7, rfl, h7⟩ := length_succ_cons h6
  obtain ⟨a8, t8, rfl, h8⟩ := length_succ_cons h7
  obtain ⟨a9, t9, rfl, h9⟩ := length_succ_cons h8
  obtain ⟨a10, t10, rfl, h10⟩ := length_succ_cons h9
  obtain ⟨a11, t11, rfl, h11⟩ := length_succ_cons h10
  obtain ⟨a12, t12, rfl, h12⟩ := length_succ_cons h11
  obtain ⟨a13, t13, rfl, h13⟩ := length_succ_cons h12
  obtain ⟨a14, t14, rfl, h14⟩ := length_succ_cons h13
  obtain ⟨a15, t15, rfl, h15⟩ := length_succ_cons h14
  obtain rfl : t15 = [] := List.length_eq_zero.mp h15
  exact ⟨a0, a1, a2, a3, a4, a5, a6, a7, a8, a9, a10, a11, a12, a13, a14, a15, rfl⟩

theorem u32_round (a b c d : Nat) (ha : a < 256) (hb : b < 256) (hc : c < 256)
    (hd : d < 256) : u32_be_bytes (from_be_bytes [a, b, c, d]) = [a, b, c, d] := by
  have hfold : from_be_bytes [a, b, c, d]
      = (((0 * 256 + a) * 256 + b) * 256 + c) * 256 + d := rfl
  rw [hfold]
  unfold u32_be_bytes
  rw [show (2 : Nat) ^ 24 = 16777216 from by norm_num,
    show (2 : Nat) ^ 16 = 65536 from by norm_num,
    show (2 : Nat) ^ 8 = 256 from by norm_num]
  simp only [List.cons.injEq, and_true]
  omega

theorem u16_round (a b : Nat) (ha : a < 256) (hb : b < 256) :
    u16_be_bytes (from_be_bytes [a, b]) = [a, b] := by
  have hfold : from_be_bytes [a, b] = (0 * 256 + a) * 256 + b := rfl
  rw [hfold]
  unfold u16_be_bytes
  rw [show (2 : Nat) ^ 8 = 256 from by norm_num]
  simp only [List.cons.injEq, and_true]
  omega

theorem data1_build (d1 d2 d3 : Nat) (d4 : List Nat) (h1 : d1 < 2 ^ 32) :
    (GUID.build_from_components d1 d2 d3 d4).data1 = d1 := by
  have hred : (GUID.build_from_components d1 d2 d3 d4).data1
      = (((0 * 256 + d1 / 2 ^ 24 % 256) * 256 + d1 / 2 ^ 16 % 256) * 256
        + d1 / 2 ^ 8 % 256) * 256 + d1 % 256 := rfl
  rw [hred]
  rw [show (2 : Nat) ^ 24 = 16777216 from by norm_num,
    show (2 : Nat) ^ 16 = 65536 from by norm_num,
    show (2 : Nat) ^ 8 = 256 from by norm_num]
  rw [show (2 : Nat) ^ 32 = 4294967296 from by norm_num] at h1
  omega

theorem data2_build (d1 d2 d3 : Nat) (d4 : List Nat) (h2 : d2 < 2 ^ 16) :
    (GUID.build_from_components d1 d2 d3 d4).data2 = d2 := by
  have hred : (GUID.build_from_components d1 d2 d3 d4).data2
      = (0 * 256 + d2 / 2 ^ 8 % 256) * 256 + d2 % 256 := rfl
  rw [hred]
  rw [show (2 : Nat) ^ 8 = 256 from by norm_num]
  rw [show (2 : Nat) ^ 16 = 65536 from by norm_num] at h2
  omega

theorem data3_build (d1 d2 d3 : Nat) (d4 : List Nat) (h3 : d3 < 2 ^ 16) :
    (GUID.build_from_components d1 d2 d3 d4).data3 = d3 := by
  have hred : (GUID.build_from_components d1 d2 d3 d4).data3
      = (0 * 256 + d3 / 2 ^ 8 % 256) * 256 + d3 % 256 := rfl
  rw [hred]
  rw [show (2 : Nat) ^ 8 = 256 from by norm_num]
  rw [show (2 : Nat) ^ 16 = 65536 from by norm_num] at h3
  omega

theorem data4_build (d1 d2 d3 : Nat) (d4 : List Nat) (h4 : d4.length = 8) :
    (GUID.build_from_components d1 d2 d3 d4).data4 = d4 := by
  have hred : (GUID.build_from_components d1 d2 d3 d4).data4 = d4.take 8 := rfl
  rw [hred]
  exact List.take_of_length_le (by omega)

/-- Modelled on the spec's words for the formatter (field-wise rendering):
field1 as 8 hex digits, field2 and field3 as 4 each, then field4's first 2
bytes as 4 hex digits, its next 4 bytes as 8 hex digits and its last 2 bytes
as 4 hex digits, the five dash-separated groups in uppercase zero-padded
hexadecimal. -/
def specFmt (g : GUID) : List Char :=
  hexPad 8 g.data1 ++ ['-'] ++
  hexPad 4 g.data2 ++ ['-'] ++
  hexPad 4 g.data3 ++ ['-'] ++
  hexPad 4 (from_be_bytes (g.data4.take 2)) ++ ['-'] ++
  hexPad 8 (from_be_bytes ((g.data4.drop 2).take 4)) ++
  hexPad 4 (from_be_bytes (g.data4.drop 6))

theorem fmt_eq_specFmt (g : GUID) : GUID.fmt g = specFmt g := by
  unfold GUID.fmt specFmt GUID.data4
  have e1 : ((g.data.drop 8).take 8).take 2 = (g.data.drop 8).take 2 := by
    rw [List.take_take]
    norm_num
  have e2 : (((g.data.drop 8).take 8).drop 2).take 4 = (g.data.drop 10).take 4 := by
    rw [List.drop_take, List.drop_drop, List.take_take]
    norm_num
  have e3 : ((g.data.drop 8).take 8).drop 6 = (g.data.drop 14).take 2 := by
    rw [List.drop_take, List.drop_drop]
  rw [e1, e2, e3]

theorem hexCharsOfBytes_length : ∀ (bs : List Nat),
    (hexCharsOfBytes bs).length = 2 * bs.length
  | [] => rfl
  | b :: bs => by
    rw [hexCharsOfBytes_cons]
    simp only [List.length_append, List.length_cons]
    rw [hexCharsOfBytes_length bs]
    simp [byteHexChars]
    omega

theorem fmt_length_of_wf (g : GUID) (hwf : g.wf) : (GUID.fmt g).length = 36 := by
  obtain ⟨h16, hlt⟩ := hwf
  rw [fmt_chars g h16 hlt]
  have hlen : ∀ (j k : Nat), j + k ≤ 16 → ((g.data.drop j).take k).length = k := by
    intro j k hjk
    simp only [List.length_take, List.length_drop, h16]
    omega
  have hl0 : (g.data.take 4).length = 4 := by
    simp only [List.length_take, h16]
    omega
  simp only [List.length_append, hexCharsOfBytes_length, List.length_cons, List.length_nil]
  rw [hl0, hlen 4 2 (by omega), hlen 6 2 (by omega), hlen 8 2 (by omega),
    hlen 10 4 (by omega), hlen 14 2 (by omega)]

theorem rebuild_of_wf (g : GUID) (hwf : g.wf) :
    GUID.build_from_components g.data1 g.data2 g.data3 g.data4 = g := by
  obtain ⟨h16, hlt⟩ := hwf
  obtain ⟨a0, a1, a2, a3, a4, a5, a6, a7, a8, a9, a10, a11, a12, a13, a14, a15, hdata⟩ :=
    list_len16 h16
  have hbmem : ∀ b ∈ ([a0, a1, a2, a3, a4, a5, a6, a7, a8, a9, a10, a11, a12, a13,
      a14, a15] : List Nat), b < 256 := by
    rw [← hdata]
    exact hlt
  have hb0 : a0 < 256 := hbmem a0 (by simp)
  have hb1 : a1 < 256 := hbmem a1 (by simp)
  have hb2 : a2 < 256 := hbmem a2 (by simp)
  have hb3 : a3 < 256 := hbmem a3 (by simp)
  have hb4 : a4 < 256 := hbmem a4 (by simp)
  have hb5 : a5 < 256 := hbmem a5 (by simp)
  have hb6 : a6 < 256 := hbmem a6 (by simp)
  have hb7 : a7 < 256 := hbmem a7 (by simp)
  have hg : g = ⟨[a0, a1, a2, a3, a4, a5, a6, a7, a8, a9, a10, a11, a12, a13, a14, a15]⟩ := by
    cases g with
    | mk d => rw [GUID.mk.injEq]; exact hdata
  have hd1 : g.data1 = from_be_bytes [a0, a1, a2, a3] := by
    unfold GUID.data1
    rw [hdata]
    rfl
  have hd2 : g.data2 = from_be_bytes [a4, a5] := by
    unfold GUID.data2
    rw [hdata]
    rfl
  have hd3 : g.data3 = from_be_bytes [a6, a7] := by
    unfold GUID.data3
    rw [hdata]
    rfl
  have hd4 : g.data4 = [a8, a9, a10, a11, a12, a13, a14, a15] := by
    unfold GUID.data4
    rw [hdata]
    rfl
  rw [hd1, hd2, hd3, hd4, hg]
  unfold GUID.build_from_components
  rw [u32_round a0 a1 a2 a3 hb0 hb1 hb2 hb3, u16_round a4 a5 hb4 hb5,
    u16_round a6 a7 hb6 hb7]
  rfl

/-- Claim C1: for every 16-byte sequence `b`, parsing the formatted text of the
GUID built from `b` succeeds and returns exactly that GUID:
`parse (fmt (build_from_slice b)) = ok (build_from_slice b)`. -/
theorem claim_C1_round_trip (b : List Nat) (hlen : b.length = 16)
    (hbytes : ∀ x ∈ b, x < 256) :
    GUID.parse (GUID.fmt (GUID.build_from_slice b)) = .ok (GUID.build_from_slice b) :=
  parse_fmt (GUID.build_from_slice b) ⟨hlen, hbytes⟩

theorem claim_C1_round_trip_witness :
    ([0x87, 0x93, 0x5C, 0xDE, 0x70, 0x94, 0x4C, 0x2B, 0xA0, 0xF4, 0xDD, 0x7D, 0x51,
      0x2D, 0xD2, 0x61] : List Nat).length = 16 ∧
    (∀ x ∈ ([0x87, 0x93, 0x5C, 0xDE, 0x70, 0x94, 0x4C, 0x2B, 0xA0, 0xF4, 0xDD, 0x7D,
      0x51, 0x2D, 0xD2, 0x61] : List Nat), x < 256) ∧
    GUID.parse (GUID.fmt (GUID.build_from_slice [0x87, 0x93, 0x5C, 0xDE, 0x70, 0x94,
      0x4C, 0x2B, 0xA0, 0xF4, 0xDD, 0x7D, 0x51, 0x2D, 0xD2, 0x61]))
      = .ok (GUID.build_from_slice [0x87, 0x93, 0x5C, 0xDE, 0x70, 0x94, 0x4C, 0x2B,
        0xA0, 0xF4, 0xDD, 0x7D, 0x51, 0x2D, 0xD2, 0x61]) :=
  ⟨by decide, by decide, claim_C1_round_trip _ (by decide) (by decide)⟩

/-- Claim C2: the parser succeeds exactly on the canonical
8-4-4-4-12 case-insensitive hex grammar (which forces 36 characters), and on
any other string it returns the single parse-error outcome. -/
theorem claim_C2_grammar (s : List Char) :
    ((∃ g, GUID.parse s = .ok g) ↔ charGrammar s) ∧
    (charGrammar s → s.length = 36) ∧
    (¬ charGrammar s → GUID.parse s = .err) := by
  refine ⟨⟨?_, ?_⟩, ?_, ?_⟩
  · rintro ⟨g, hg⟩
    exact charGrammar_of_parse_ok hg
  · exact parse_ok_of_charGrammar
  · intro hg
    obtain ⟨g1, g2, g3, g4, g5, rfl, hl1, hl2, hl3, hl4, hl5, _⟩ := hg
    simp only [List.length_append, List.length_cons, List.length_nil, hl1, hl2, hl3,
      hl4, hl5]
  · intro hng
    rcases hp : GUID.parse s with g | _ | _
    · exact absurd (charGrammar_of_parse_ok hp) hng
    · rfl
    · exact absurd hp (parse_bytes_ne_fault (utf8Bytes s))

theorem claim_C2_grammar_witness :
    ∃ g, GUID.parse ("87935CDE-7094-4C2B-A0F4-DD7D512DD261".toList) = .ok g :=
  (claim_C2_grammar _).1.mpr ⟨"87935CDE".toList, "7094".toList, "4C2B".toList,
    "A0F4".toList, "DD7D512DD261".toList, by decide, by decide, by decide, by decide,
    by decide, by decide, by decide⟩

/-- Claim C3: the formatter renders field1 as 8 hex digits, field2 and field3
as 4 each, and field4 as its first 2 bytes, next 4 bytes, then last 2 bytes
(4, 8, 4 hex digits), in the dash pattern 8-4-4-4-12, uppercase and
zero-padded; in particular the canonical example formats to
`87935CDE-7094-4C2B-A0F4-DD7D512DD261`. -/
theorem claim_C3_formatter :
    (∀ g : GUID, GUID.fmt g = specFmt g) ∧
    GUID.fmt (GUID.build_from_components 0x87935CDE 0x7094 0x4C2B
      [0xA0, 0xF4, 0xDD, 0x7D, 0x51, 0x2D, 0xD2, 0x61])
      = "87935CDE-7094-4C2B-A0F4-DD7D512DD261".toList :=
  ⟨fmt_eq_specFmt, by decide⟩

/-- Claim C4: the four accessors return exactly the components the GUID was
built from. -/
theorem claim_C4_component_symmetry (f1 f2 f3 : Nat) (f4 : List Nat)
    (h1 : f1 < 2 ^ 32) (h2 : f2 < 2 ^ 16) (h3 : f3 < 2 ^ 16) (h4 : f4.length = 8) :
    (GUID.build_from_components f1 f2 f3 f4).data1 = f1 ∧
    (GUID.build_from_components f1 f2 f3 f4).data2 = f2 ∧
    (GUID.build_from_components f1 f2 f3 f4).data3 = f3 ∧
    (GUID.build_from_components f1 f2 f3 f4).data4 = f4 :=
  ⟨data1_build f1 f2 f3 f4 h1, data2_build f1 f2 f3 f4 h2, data3_build f1 f2 f3 f4 h3,
    data4_build f1 f2 f3 f4 h4⟩

theorem claim_C4_component_symmetry_witness :
    (GUID.build_from_components 0x87935CDE 0x7094 0x4C2B
      [0xA0, 0xF4, 0xDD, 0x7D, 0x51, 0x2D, 0xD2, 0x61]).data1 = 0x87935CDE ∧
    (GUID.build_from_components 0x87935CDE 0x7094 0x4C2B
      [0xA0, 0xF4, 0xDD, 0x7D, 0x51, 0x2D, 0xD2, 0x61]).data2 = 0x7094 ∧
    (GUID.build_from_components 0x87935CDE 0x7094 0x4C2B
      [0xA0, 0xF4, 0xDD, 0x7D, 0x51, 0x2D, 0xD2, 0x61]).data3 = 0x4C2B ∧
    (GUID.build_from_components 0x87935CDE 0x7094 0x4C2B
      [0xA0, 0xF4, 0xDD, 0x7D, 0x51, 0x2D, 0xD2, 0x61]).data4
      = [0xA0, 0xF4, 0xDD, 0x7D, 0x51, 0x2D, 0xD2, 0x61] :=
  claim_C4_component_symmetry 0x87935CDE 0x7094 0x4C2B
    [0xA0, 0xF4, 0xDD, 0x7D, 0x51, 0x2D, 0xD2, 0x61]
    (by decide) (by decide) (by decide) (by decide)

/-- Claim C5: building from components equals building from the slice whose
bytes 0-3 are the big-endian bytes of field1, bytes 4-5 of field2, bytes 6-7
of field3, and bytes 8-15 are field4 verbatim. -/
theorem claim_C5_slice_equivalence (f1 f2 f3 : Nat) (f4 : List Nat)
    (h1 : f1 < 2 ^ 32) (h2 : f2 < 2 ^ 16) (h3 : f3 < 2 ^ 16) (h4 : f4.length = 8) :
    GUID.build_from_components f1 f2 f3 f4
      = GUID.build_from_slice ([f1 / 2 ^ 24 % 256, f1 / 2 ^ 16 % 256, f1 / 2 ^ 8 % 256,
        f1 % 256, f2 / 2 ^ 8 % 256, f2 % 256, f3 / 2 ^ 8 % 256, f3 % 256] ++ f4) := rfl

theorem claim_C5_slice_equivalence_witness :
    GUID.build_from_components 0x87935CDE 0x7094 0x4C2B
      [0xA0, 0xF4, 0xDD, 0x7D, 0x51, 0x2D, 0xD2, 0x61]
      = GUID.build_from_slice [0x87, 0x93, 0x5C, 0xDE, 0x70, 0x94, 0x4C, 0x2B, 0xA0,
        0xF4, 0xDD, 0x7D, 0x51, 0x2D, 0xD2, 0x61] :=
  claim_C5_slice_equivalence 0x87935CDE 0x7094 0x4C2B
    [0xA0, 0xF4, 0xDD, 0x7D, 0x51, 0x2D, 0xD2, 0x61]
    (by decide) (by decide) (by decide) (by decide)

/-- Claim C6: any accepted string formats back to its uppercase
case-normalization, and the uppercased string parses to the same GUID. -/
theorem claim_C6_case_normalization (s : List Char) (g : GUID)
    (h : GUID.parse s = .ok g) :
    GUID.fmt g = s.map upcaseChar ∧ GUID.parse (s.map upcaseChar) = .ok g := by
  obtain ⟨hwf, hfmt⟩ := fmt_of_parse h
  refine ⟨hfmt, ?_⟩
  rw [← hfmt]
  exact parse_fmt g hwf

theorem claim_C6_case_normalization_witness :
    GUID.fmt ⟨[0x87, 0x93, 0x5C, 0xDE, 0x70, 0x94, 0x4C, 0x2B, 0xA0, 0xF4, 0xDD, 0x7D,
      0x51, 0x2D, 0xD2, 0x61]⟩
      = ("87935cde-7094-4c2b-a0f4-dd7d512dd261".toList).map upcaseChar ∧
    GUID.parse (("87935cde-7094-4c2b-a0f4-dd7d512dd261".toList).map upcaseChar)
      = .ok ⟨[0x87, 0x93, 0x5C, 0xDE, 0x70, 0x94, 0x4C, 0x2B, 0xA0, 0xF4, 0xDD, 0x7D,
        0x51, 0x2D, 0xD2, 0x61]⟩ :=
  claim_C6_case_normalization ("87935cde-7094-4c2b-a0f4-dd7d512dd261".toList) _
    (by decide)

/-- Claim C7: the parser is total and never faults: on every input string it
returns success or the parse error, and never the arithmetic-fault outcome
standing for a panic. -/
theorem claim_C7_no_panic (s : List Char) :
    GUID.parse s ≠ PResult.fault ∧
    ((∃ g, GUID.parse s = .ok g) ∨ GUID.parse s = .err) := by
  refine ⟨parse_bytes_ne_fault (utf8Bytes s), ?_⟩
  rcases hp : GUID.parse s with g | _ | _
  · exact Or.inl ⟨g, rfl⟩
  · exact Or.inr rfl
  · exact absurd hp (parse_bytes_ne_fault (utf8Bytes s))

/-- Claim C8: the formatted text of every (well-formed, 16-byte) GUID has
length exactly 36. -/
theorem claim_C8_length (g : GUID) (hwf : g.wf) : (GUID.fmt g).length = 36 :=
  fmt_length_of_wf g hwf

theorem claim_C8_length_witness : (GUID.fmt GUID.default).length = 36 :=
  claim_C8_length GUID.default (by decide)

/-- Claim C9: every (well-formed) GUID is reproduced exactly by rebuilding it
from its own accessor projections. -/
theorem claim_C9_rebuild (g : GUID) (hwf : g.wf) :
    GUID.build_from_components g.data1 g.data2 g.data3 g.data4 = g :=
  rebuild_of_wf g hwf

theorem claim_C9_rebuild_witness :
    GUID.build_from_components GUID.default.data1 GUID.default.data2 GUID.default.data3
      GUID.default.data4 = GUID.default :=
  claim_C9_rebuild GUID.default (by decide)

/-- Claim C10: the default GUID stores sixteen zero bytes, all integer
accessors return 0, `data4` is eight zero bytes, and it formats to the
all-zero canonical string. -/
theorem claim_C10_default :
    GUID.default.data = List.replicate 16 0 ∧
    GUID.default.data1 = 0 ∧ GUID.default.data2 = 0 ∧ GUID.default.data3 = 0 ∧
    GUID.default.data4 = List.replicate 8 0 ∧
    GUID.fmt GUID.default = "00000000-0000-0000-0000-000000000000".toList :=
  ⟨rfl, by decide, by decide, by decide, by decide, by decide⟩

end GuidCreate
